import Mathlib

/-!
A verification development for the scheduling and lowering core in
`src/ScheduleFunctions.cpp`: loop-nest synthesis for one stage (split
normalisation, split/fuse/rename rewriting), schedule validation
(legal sites and the parallel-race check), the post-processing of
`schedule_functions`, and the auto-scheduler's option evaluation and
merge acceptance.

The expression and statement IR, the `Schedule` record types
(`Split`, `Dim`, `LoopLevel`) and helpers such as `substitute` and
`simplify` live outside the translated source file (they are external
collaborators per the specification), so they are modelled from the
specification's data model; every algorithm below is translated
directly from `ScheduleFunctions.cpp` and is annotated with the
source lines it embeds.
-/

namespace ScheduleFunctionsProof

/-- Names are modelled as character lists so that the suffix/prefix
tests used by the IR walkers admit simple proofs. -/
abbrev Name := List Char

/-- Coerce a string literal to a `Name`. -/
def strN (s : String) : Name := s.data

/-- Modelled from the spec: Halide's `ends_with(str, suffix)` string helper
(used by `RemoveLoopsOverOutermost` and `ComputeLegalSchedules`; it lives
outside the translated source file). -/
def ends_with (n suffix : Name) : Bool := suffix.isSuffixOf n

/-- Modelled from the spec: Halide's `starts_with(str, pre)` string helper. -/
def starts_with (n pre : Name) : Bool := pre.isPrefixOf n

/-- The four loop types a schedule dimension can carry (spec §3). -/
inductive ForType
  | Serial
  | Parallel
  | Vectorized
  | Unrolled
deriving DecidableEq

/-- Device-API tags on loops. `Parent` means "inherit from the enclosing
loop"; `Host` is the initial tag used by `schedule_functions`. Concrete
GPU APIs are collapsed into one constructor, which is all the embedded
code distinguishes. -/
inductive DeviceAPI
  | Parent
  | Host
  | GPU
deriving DecidableEq

/-- Modelled from the spec: the external expression IR (§6). Multi-argument
calls are modelled with a single argument slot; this development never
needs more. `Likely` is the `likely` intrinsic call. -/
inductive Expr
  | IntImm (v : Int)
  | Var (n : Name)
  | Add (a b : Expr)
  | Sub (a b : Expr)
  | Mul (a b : Expr)
  | Div (a b : Expr)
  | Mod (a b : Expr)
  | Min (a b : Expr)
  | Max (a b : Expr)
  | Likely (a : Expr)
  | Call (n : Name) (arg : Expr)
deriving DecidableEq

/-- Modelled from the spec: the external statement IR (§6). Multi-valued,
multi-dimensional provides are modelled with one value slot and one site
slot; none of the embedded algorithms inspects provide arity. -/
inductive Stmt
  | Evaluate (e : Expr)
  | Provide (n : Name) (value : Expr) (site : Expr)
  | LetStmt (n : Name) (value : Expr) (body : Stmt)
  | For (n : Name) (lo extent : Expr) (ft : ForType) (dev : DeviceAPI) (body : Stmt)
  | Block (first rest : Stmt)
  | IfThenElse (cond : Expr) (thenC elseC : Stmt)
deriving DecidableEq

/-- Modelled from the spec: `substitute(name → expr)` on expressions
(an external collaborator, §6): replace every variable with the given
name. -/
def substE (x : Name) (r : Expr) : Expr → Expr
  | .IntImm v => .IntImm v
  | .Var n => if n == x then r else .Var n
  | .Add a b => .Add (substE x r a) (substE x r b)
  | .Sub a b => .Sub (substE x r a) (substE x r b)
  | .Mul a b => .Mul (substE x r a) (substE x r b)
  | .Div a b => .Div (substE x r a) (substE x r b)
  | .Mod a b => .Mod (substE x r a) (substE x r b)
  | .Min a b => .Min (substE x r a) (substE x r b)
  | .Max a b => .Max (substE x r a) (substE x r b)
  | .Likely a => .Likely (substE x r a)
  | .Call n a => .Call n (substE x r a)

/-- Modelled from the spec: `substitute(name → expr)` on statements. -/
def substS (x : Name) (r : Expr) : Stmt → Stmt
  | .Evaluate e => .Evaluate (substE x r e)
  | .Provide n v s => .Provide n (substE x r v) (substE x r s)
  | .LetStmt n v b => .LetStmt n (substE x r v) (substS x r b)
  | .For n lo ext ft dev b => .For n (substE x r lo) (substE x r ext) ft dev (substS x r b)
  | .Block a b => .Block (substS x r a) (substS x r b)
  | .IfThenElse c t e => .IfThenElse (substE x r c) (substS x r t) (substS x r e)

/-- Integer evaluation of expressions under an environment. Halide's
integer division and modulus round toward negative infinity, hence
`Int.fdiv`/`Int.fmod`; `likely` is the identity at run time and calls are
uninterpreted. -/
def evalE (env : Name → Int) : Expr → Int
  | .IntImm v => v
  | .Var n => env n
  | .Add a b => evalE env a + evalE env b
  | .Sub a b => evalE env a - evalE env b
  | .Mul a b => evalE env a * evalE env b
  | .Div a b => Int.fdiv (evalE env a) (evalE env b)
  | .Mod a b => Int.fmod (evalE env a) (evalE env b)
  | .Min a b => min (evalE env a) (evalE env b)
  | .Max a b => max (evalE env a) (evalE env b)
  | .Likely a => evalE env a
  | .Call _ _ => 0

/-- All divisor subexpressions (right operands of `Div` and `Mod`)
occurring in an expression. -/
def divisorsE : Expr → List Expr
  | .IntImm _ => []
  | .Var _ => []
  | .Add a b => divisorsE a ++ divisorsE b
  | .Sub a b => divisorsE a ++ divisorsE b
  | .Mul a b => divisorsE a ++ divisorsE b
  | .Div a b => divisorsE a ++ b :: divisorsE b
  | .Mod a b => divisorsE a ++ b :: divisorsE b
  | .Min a b => divisorsE a ++ divisorsE b
  | .Max a b => divisorsE a ++ divisorsE b
  | .Likely a => divisorsE a
  | .Call _ a => divisorsE a

/-- Modelled from the spec: `simplify` is an external collaborator; the
embedding constant-folds exactly the shapes the translated code asks it
about — `Mod` (for the divisibility test, `ScheduleFunctions.cpp:154`)
and `Mul` (for the combined split factor, line 118) of integer literals —
and leaves every other expression untouched. Constant `Mod` follows
Halide's euclidean convention (result in `[0, b)` for `b > 0`). -/
def simplifyE : Expr → Expr
  | .Mod (.IntImm a) (.IntImm b) =>
      if b == 0 then .Mod (.IntImm a) (.IntImm b) else .IntImm (Int.emod a b)
  | .Mul (.IntImm a) (.IntImm b) => .IntImm (a * b)
  | e => e

/-- Modelled from the spec: Halide's `is_zero` test on expressions,
as consulted at `ScheduleFunctions.cpp:154`. -/
def is_zero : Expr → Bool
  | .IntImm v => v == 0
  | _ => false

/-! ## Schedule data (spec §3) -/

/-- The three split kinds (spec §3: SplitVar / FuseVars / Rename). -/
inductive SplitKind
  | split
  | fuse
  | rename
deriving DecidableEq

/-- Modelled from the spec: the `Split` record of a `Schedule`
(`Schedule.h` is outside the translated source). `isPartial` is the
`partial` flag of a SplitVar. -/
structure Split where
  old_var : Name
  outer : Name
  inner : Name
  factor : Expr
  exact : Bool
  isPartial : Bool
  kind : SplitKind
deriving DecidableEq

def Split.is_rename (s : Split) : Bool := s.kind == .rename
def Split.is_split (s : Split) : Bool := s.kind == .split
def Split.is_fuse (s : Split) : Bool := s.kind == .fuse

/-- Modelled from the spec: a schedule dimension. The purity flag and
device tag of the source `Dim` are omitted: the embedded fragments read
only the variable name and the loop type. -/
structure Dim where
  var : Name
  for_type : ForType
deriving DecidableEq

/-- The map `var → known extent` threaded through
`build_provide_loop_nest` (`known_size_dims`,
`ScheduleFunctions.cpp:56`). `std::map` access is modelled with
first-match lookup and replace-or-append insertion. -/
abbrev KnownMap := List (Name × Expr)

def klookup (m : KnownMap) (k : Name) : Option Expr :=
  (m.find? (fun p => p.1 == k)).map (·.2)

def kinsert (m : KnownMap) (k : Name) (v : Expr) : KnownMap :=
  match m with
  | [] => [(k, v)]
  | p :: rest => if p.1 == k then (k, v) :: rest else p :: kinsert rest k v

/-! ## Loop-nest builder: split processing (`build_provide_loop_nest`) -/

/-- `ScheduleFunctions.cpp:130-137`: the innermost non-trivial loop is the
first schedule dim whose loop type is neither Vectorized nor Unrolled.
When no dim qualifies the source leaves the record default-initialised;
the embedding uses an empty name and Serial, and no theorem relies on
that corner. -/
def innermostNonTrivial (dims : List Dim) : Dim :=
  (dims.find? (fun d => d.for_type != .Vectorized && d.for_type != .Unrolled)).getD
    { var := [], for_type := .Serial }

/-- The data carried by the non-divisible exact-split user error
(`ScheduleFunctions.cpp:159-167`): the error text names the old
variable, the outer and inner variables, the factor and the looked-up
extent. -/
structure SplitError where
  old_var : Name
  outer : Name
  inner : Name
  factor : Expr
  extent : Option Expr
deriving DecidableEq

/-- `ScheduleFunctions.cpp:152-154`: the divisibility test
`iter != end && is_zero(simplify(iter->second % split.factor))` on the
known-size map (after the split's inner variable has been recorded). -/
def proven_divides (known : KnownMap) (split : Split) : Bool :=
  match klookup known split.old_var with
  | some e => is_zero (simplifyE (.Mod e split.factor))
  | none => false

/-- `ScheduleFunctions.cpp:141-226`: the body of the loop
"define the function args in terms of the loop variables using the
splits", processing one split and rewriting the partial statement.
`pre` is the stage prefix, `is_update` tells a pure stage from an
update, `intl` is the precomputed innermost non-trivial loop. -/
def apply_split_step (pre : Name) (is_update : Bool) (intl : Dim)
    (st : Stmt × KnownMap) (split : Split) : Except SplitError (Stmt × KnownMap) :=
  let stmt := st.1
  let known := st.2
  let outer : Expr := .Var (pre ++ split.outer)
  match split.kind with
  | .split =>
    let inner : Expr := .Var (pre ++ split.inner)
    let old_max : Expr := .Var (pre ++ split.old_var ++ strN ".loop_max")
    let old_min : Expr := .Var (pre ++ split.old_var ++ strN ".loop_min")
    let known1 := kinsert known split.inner split.factor
    let base0 : Expr := .Add (.Mul outer split.factor) old_min
    let emit (base : Expr) (k : KnownMap) : Stmt × KnownMap :=
      let base_name := pre ++ split.inner ++ strN ".base"
      let base_var : Expr := .Var base_name
      let s1 := substS (pre ++ split.old_var) (.Add base_var inner) stmt
      let s2 := Stmt.LetStmt (pre ++ split.old_var) (.Add base_var inner) s1
      (Stmt.LetStmt base_name base s2, k)
    if proven_divides known1 split then
      -- the split factor divides the old extent: no base adjustment,
      -- propagate the outer extent (line 158)
      let ext := (klookup known1 split.old_var).getD (.IntImm 0)
      Except.ok (emit base0 (kinsert known1 split.outer (.Div ext split.factor)))
    else if split.exact then
      -- exact split whose divisibility could not be proven: user error
      -- (lines 159-167)
      Except.error
        { old_var := split.old_var, outer := split.outer, inner := split.inner,
          factor := split.factor, extent := klookup known1 split.old_var }
    else if !is_update && !split.isPartial then
      -- pure non-partial stage: clamp the base, marking it likely first
      -- when the outer var is the innermost non-trivial serial loop
      -- (lines 168-182)
      let base1 :=
        if split.outer == intl.var && intl.for_type == .Serial then
          Expr.Likely base0
        else base0
      let base2 := Expr.Min base1 (.Add old_max (.Sub (.IntImm 1) split.factor))
      Except.ok (emit base2 known1)
    else
      Except.ok (emit base0 known1)
  | .fuse =>
    -- lines 192-220
    let fused : Expr := .Var (pre ++ split.old_var)
    let inner_min : Expr := .Var (pre ++ split.inner ++ strN ".loop_min")
    let outer_min : Expr := .Var (pre ++ split.outer ++ strN ".loop_min")
    let inner_extent : Expr := .Var (pre ++ split.inner ++ strN ".loop_extent")
    let factor : Expr := .Max inner_extent (.IntImm 1)
    let inner : Expr := .Add (.Mod fused factor) inner_min
    let outerE : Expr := .Add (.Div fused factor) outer_min
    let s1 := substS (pre ++ split.inner) inner stmt
    let s2 := substS (pre ++ split.outer) outerE s1
    let s3 := Stmt.LetStmt (pre ++ split.inner) inner s2
    let s4 := Stmt.LetStmt (pre ++ split.outer) outerE s3
    let known1 :=
      match klookup known split.inner, klookup known split.outer with
      | some a, some b => kinsert known split.old_var (.Mul a b)
      | _, _ => known
    Except.ok (s4, known1)
  | .rename =>
    -- lines 222-225
    let s1 := substS (pre ++ split.old_var) outer stmt
    Except.ok (Stmt.LetStmt (pre ++ split.old_var) outer s1, known)

/-- The whole rewrite loop of `ScheduleFunctions.cpp:141-226`: process the
(already rebalanced) splits in order; a user error aborts the stage with
no IR. -/
def apply_splits (pre : Name) (is_update : Bool) (dims : List Dim)
    (splits : List Split) (st : Stmt × KnownMap) :
    Except SplitError (Stmt × KnownMap) :=
  splits.foldlM (apply_split_step pre is_update (innermostNonTrivial dims)) st

/-! ## Split normaliser (`ScheduleFunctions.cpp:69-128`) -/

/-- Modelled from the spec: `unique_name('s')` draws a fresh synthetic
name from a global counter; the embedding threads the counter
explicitly. -/
def unique_name (ctr : Nat) : Name := 's' :: Nat.toDigits 10 ctr

/-- Placeholder split used to discharge the (always in-range) vector
accesses of the rebalance loop. -/
def defSplit : Split :=
  { old_var := [], outer := [], inner := [], factor := .IntImm 0,
    exact := false, isPartial := false, kind := .split }

/-- Result of the rebalance loop. `internalError` is the
`internal_assert(!second.is_rename())` abort at line 78; `fuelOut`
(never reached at the inputs this development evaluates) bounds the
recursion. -/
inductive RebRes
  | ok (splits : List Split) (ctr : Nat)
  | internalError
  | fuelOut
deriving DecidableEq

/-- `ScheduleFunctions.cpp:121-124`: push `splits[j]` back to position
`i+1` by successive swaps, shifting positions `i+1 .. j-1` up by one. -/
def moveBack (l : List Split) (i j : Nat) : List Split :=
  l.take (i+1) ++ (l.drop j).take 1 ++ (l.drop (i+1)).take (j - (i+1)) ++ l.drop (j+1)

/-- `ScheduleFunctions.cpp:72-128`: the double loop that rebalances the
split tree ("make the outermost split first"). The state `(i, j)`
follows the C++ indices exactly: the rename case deletes `splits[i]`,
rewrites `splits[j].old_var` and resumes at `j = i+2` (the source sets
`j = i+1` and the `for` then increments it); the combine case rewrites
the two splits, moves the second to position `i+1` and resumes at
`j+1`; inner-loop exit advances to `(i+1, i+2)`. -/
def rebalanceAux : Nat → List Split → Nat → Nat → Nat → RebRes
  | 0, _, _, _, _ => .fuelOut
  | fuel+1, splits, ctr, i, j =>
    if i < splits.length then
      if j < splits.length then
        let first := splits.getD i defSplit
        let second := splits.getD j defSplit
        if first.outer == second.old_var then
          if second.is_rename then .internalError
          else if first.is_rename then
            let splits1 := splits.set j { second with old_var := first.old_var }
            rebalanceAux fuel (splits1.eraseIdx i) ctr i (i+2)
          else
            let ex := first.exact || second.exact
            let s := unique_name ctr
            let first' : Split :=
              { first with exact := ex, outer := second.outer, inner := s,
                           factor := simplifyE (.Mul first.factor second.factor) }
            let second' : Split :=
              { second with exact := ex, old_var := s, outer := second.inner,
                            inner := first.inner, factor := first.factor }
            let splits1 := (splits.set i first').set j second'
            rebalanceAux fuel (moveBack splits1 i j) (ctr+1) i (j+1)
        else rebalanceAux fuel splits ctr i (j+1)
      else rebalanceAux fuel splits ctr (i+1) (i+2)
    else .ok splits ctr

/-- The split normalisation entry point (`vector<Split> splits = s.splits()`
followed by the rebalance loop). The fuel comfortably dominates the
loop's step count at every input evaluated below. -/
def rebalance_splits (l : List Split) (ctr : Nat) : RebRes :=
  rebalanceAux ((l.length + 2) * (l.length + 2) * (l.length + 2)) l ctr 0 1

/-! ## Schedule validator (`ScheduleFunctions.cpp:774-1060`) -/

/-- Modelled from the spec: `LoopLevel` is a `(func, var)` pair with the
distinguished `inline` (empty var) and `root` values; equality is the
structural `match` (spec §3; `Schedule.h` is outside the translated
source). -/
inductive LoopLevelV
  | root
  | inlined
  | at_ (func : Name) (var : Name)
deriving DecidableEq

/-- Modelled from the spec: `LoopLevel::match` is structural equality. -/
def LoopLevelV.matchL (a b : LoopLevelV) : Bool := a == b

/-- `ComputeLegalSchedules::Site` (`ScheduleFunctions.cpp:776-779`). -/
structure SiteV where
  is_parallel : Bool
  loop_level : LoopLevelV
deriving DecidableEq

/-- `ScheduleFunctions.cpp:799-800`: a site is flagged parallel exactly
when the loop is Parallel or Vectorized. -/
def site_is_parallel (ft : ForType) : Bool :=
  ft == .Parallel || ft == .Vectorized

/-- The function component of a loop name: everything before the first
dot (`ScheduleFunctions.cpp:794-797`). The source asserts that a dot
exists; the embedding is only applied to dotted loop names. -/
def func_part (n : Name) : Name := n.takeWhile (fun c => c != '.')

/-- The var component of a loop name: everything after the last dot
(`ScheduleFunctions.cpp:795-798`). -/
def var_part (n : Name) : Name := (n.reverse.takeWhile (fun c => c != '.')).reverse

/-- The visitor state of `ComputeLegalSchedules`: the stack of enclosing
loop sites, whether a use was found yet, and the running intersection of
legal sites. -/
structure LSState where
  stack : List SiteV
  found : Bool
  allowed : List SiteV

/-- `ScheduleFunctions.cpp:807-826`: on a use of the function, either
seed the legal sites with the current stack or intersect positionally
(keep the stack sites whose loop level matches some already-allowed
site). -/
def register_use (st : LSState) : LSState :=
  if !st.found then { st with found := true, allowed := st.stack }
  else
    { st with allowed :=
        st.stack.filter (fun s1 => st.allowed.any (fun s2 => s1.loop_level.matchL s2.loop_level)) }

/-- `ComputeLegalSchedules`' expression walk: calls to the function and
handle variables named `<func>. ... .buffer` register a use
(`ScheduleFunctions.cpp:828-842`; the handle-type test is modelled by
the name shape alone). -/
def lsExpr (fname : Name) (st : LSState) : Expr → LSState
  | .IntImm _ => st
  | .Var n =>
      if starts_with n (fname ++ strN ".") && ends_with n (strN ".buffer") then
        register_use st
      else st
  | .Add a b => lsExpr fname (lsExpr fname st a) b
  | .Sub a b => lsExpr fname (lsExpr fname st a) b
  | .Mul a b => lsExpr fname (lsExpr fname st a) b
  | .Div a b => lsExpr fname (lsExpr fname st a) b
  | .Mod a b => lsExpr fname (lsExpr fname st a) b
  | .Min a b => lsExpr fname (lsExpr fname st a) b
  | .Max a b => lsExpr fname (lsExpr fname st a) b
  | .Likely a => lsExpr fname st a
  | .Call n a =>
      let st1 := lsExpr fname st a
      if n == fname then register_use st1 else st1

/-- `ComputeLegalSchedules`' statement walk (`ScheduleFunctions.cpp:
791-805` plus the default visitor): a `For` visits its bounds, pushes
its site (parsed from the loop name, flagged by `site_is_parallel`),
walks the body and pops. -/
def lsStmt (fname : Name) (st : LSState) : Stmt → LSState
  | .Evaluate e => lsExpr fname st e
  | .Provide _ v s => lsExpr fname (lsExpr fname st v) s
  | .LetStmt _ v b => lsStmt fname (lsExpr fname st v) b
  | .For n lo ext ft _ b =>
      let st1 := lsExpr fname (lsExpr fname st lo) ext
      let site : SiteV := { is_parallel := site_is_parallel ft,
                            loop_level := .at_ (func_part n) (var_part n) }
      let st2 := lsStmt fname { st1 with stack := st1.stack ++ [site] } b
      { st2 with stack := st2.stack.dropLast }
  | .Block a b => lsStmt fname (lsStmt fname st a) b
  | .IfThenElse c t e => lsStmt fname (lsStmt fname (lsExpr fname st c) t) e

/-- The legal-site list for a function in a statement
(`ComputeLegalSchedules` applied at `ScheduleFunctions.cpp:1015-1016`). -/
def legalSites (fname : Name) (s : Stmt) : List SiteV :=
  (lsStmt fname { stack := [], found := false, allowed := [] } s).allowed

/-- Outcome of `validate_schedule`. A race error is the user error whose
text carries the "stored outside the parallel loop ... computed within
it" diagnostic; a location error is the plain invalid-location user
error; both name the function. -/
inductive VResult
  | ok
  | outputError (fname : Name)
  | raceError (fname : Name)
  | locationError (fname : Name)
deriving DecidableEq

/-- State of the index scan at `ScheduleFunctions.cpp:1018-1030`. -/
structure ScanRes where
  store_ok : Bool
  compute_ok : Bool
  store_idx : Nat
  compute_idx : Nat
deriving DecidableEq

/-- `ScheduleFunctions.cpp:1018-1030`: walk the legal sites recording the
last index matching `store_at` and the last index matching `compute_at`;
`compute_ok` is assigned the current `store_ok` whenever the compute
level matches. -/
def scan_sites (sites : List SiteV) (store_at compute_at : LoopLevelV) : ScanRes :=
  sites.enum.foldl
    (fun (r : ScanRes) (p : Nat × SiteV) =>
      let r1 := if p.2.loop_level.matchL store_at then
          { r with store_ok := true, store_idx := p.1 } else r
      if p.2.loop_level.matchL compute_at then
        { r1 with compute_ok := r1.store_ok, compute_idx := p.1 }
      else r1)
    { store_ok := false, compute_ok := false, store_idx := 0, compute_idx := 0 }

/-- `ScheduleFunctions.cpp:1036-1043`: the race loop runs `i` from
`store_idx + 1` up to and including `compute_idx` and fires on any
parallel site. -/
def parallel_between (sites : List SiteV) (si ci : Nat) : Bool :=
  (List.range' (si+1) (ci - si)).any
    (fun k => (sites.getD k { is_parallel := false, loop_level := .root }).is_parallel)

/-- The claim's reading of "a parallel site strictly between the
store_at and compute_at sites": indices `k` with `si < k < ci`. -/
def parallel_strictly_between (sites : List SiteV) (si ci : Nat) : Bool :=
  (List.range' (si+1) (ci - si - 1)).any
    (fun k => (sites.getD k { is_parallel := false, loop_level := .root }).is_parallel)

/-- `ScheduleFunctions.cpp:1018-1059`: the non-inline, non-output part of
`validate_schedule`, deciding acceptance from the legal-site list. -/
def validate_sites (fname : Name) (store_at compute_at : LoopLevelV)
    (sites : List SiteV) : VResult :=
  let r := scan_sites sites store_at compute_at
  if r.store_ok && r.compute_ok then
    if parallel_between sites r.store_idx r.compute_idx then .raceError fname
    else .ok
  else .locationError fname

/-- `validate_schedule` (`ScheduleFunctions.cpp:959-1060`): outputs must
be stored and computed at root (and are then accepted without walking
the statement); fully inline schedules are accepted; otherwise the
legal-site analysis of the statement decides. The extern-argument check
and the unscheduled-update warning concern functions this embedding does
not model and do not alter the result for the claims below. -/
def validate_schedule (fname : Name) (store_at compute_at : LoopLevelV)
    (is_output : Bool) (s : Stmt) : VResult :=
  if is_output then
    if store_at == .root && compute_at == .root then .ok
    else .outputError fname
  else if store_at == .inlined && compute_at == .inlined then .ok
  else validate_sites fname store_at compute_at (legalSites fname s)

/-! ## `RemoveLoopsOverOutermost` and the tail of `schedule_functions`
(`ScheduleFunctions.cpp:1062-1176`) -/

def outermost_suffix : Name := strN ".__outermost"
def out_ext_suffix : Name := strN ".__outermost.loop_extent"
def out_min_suffix : Name := strN ".__outermost.loop_min"
def out_max_suffix : Name := strN ".__outermost.loop_max"

/-- `RemoveLoopsOverOutermost::visit(Variable)`
(`ScheduleFunctions.cpp:1073-1083`): `.__outermost` loop-extent, loop-min
and loop-max references become 1, 0 and 1. -/
def removeE : Expr → Expr
  | .IntImm v => .IntImm v
  | .Var n =>
      if ends_with n out_ext_suffix then .IntImm 1
      else if ends_with n out_min_suffix then .IntImm 0
      else if ends_with n out_max_suffix then .IntImm 1
      else .Var n
  | .Add a b => .Add (removeE a) (removeE b)
  | .Sub a b => .Sub (removeE a) (removeE b)
  | .Mul a b => .Mul (removeE a) (removeE b)
  | .Div a b => .Div (removeE a) (removeE b)
  | .Mod a b => .Mod (removeE a) (removeE b)
  | .Min a b => .Min (removeE a) (removeE b)
  | .Max a b => .Max (removeE a) (removeE b)
  | .Likely a => .Likely (removeE a)
  | .Call n a => .Call n (removeE a)

/-- `RemoveLoopsOverOutermost` on statements
(`ScheduleFunctions.cpp:1065-1093`): drop `For` loops whose name ends in
`.__outermost` (keeping the mutated body) and the `LetStmt`s defining
the three `.__outermost` bound symbols; mutate everything else
structurally. -/
def removeS : Stmt → Stmt
  | .Evaluate e => .Evaluate (removeE e)
  | .Provide n v s => .Provide n (removeE v) (removeE s)
  | .LetStmt n v b =>
      if ends_with n out_ext_suffix || ends_with n out_min_suffix
          || ends_with n out_max_suffix then removeS b
      else .LetStmt n (removeE v) (removeS b)
  | .For n lo ext ft dev b =>
      if ends_with n outermost_suffix then removeS b
      else .For n (removeE lo) (removeE ext) ft dev (removeS b)
  | .Block a b => .Block (removeS a) (removeS b)
  | .IfThenElse c t e => .IfThenElse (removeE c) (removeS t) (removeS e)

/-- `PropagateLoopDeviceAPI` (`ScheduleFunctions.cpp:1097-1125`): every
`For` whose device tag is `Parent` inherits the nearest enclosing
non-`Parent` tag (initially Host); loop bounds are untouched. -/
def propagateS (cur : DeviceAPI) : Stmt → Stmt
  | .Evaluate e => .Evaluate e
  | .Provide n v s => .Provide n v s
  | .LetStmt n v b => .LetStmt n v (propagateS cur b)
  | .For n lo ext ft dev b =>
      let d := if dev == .Parent then cur else dev
      .For n lo ext ft d (propagateS d b)
  | .Block a b => .Block (propagateS cur a) (propagateS cur b)
  | .IfThenElse c t e => .IfThenElse c (propagateS cur t) (propagateS cur e)

/-- The tail of `schedule_functions` (`ScheduleFunctions.cpp:1163-1174`):
after the per-function loop, the synthetic root `For` is required at the
top (an internal assertion otherwise, modelled as `none`), its body is
taken, `.__outermost` loops are removed and device APIs propagated from
Host. -/
def schedule_functions_tail (s : Stmt) : Option Stmt :=
  match s with
  | .For _ _ _ _ _ body => some (propagateS .Host (removeS body))
  | _ => none

/-- No variable in the expression refers to a `.__outermost` bound
symbol. -/
def noOutVarE : Expr → Bool
  | .IntImm _ => true
  | .Var n =>
      !(ends_with n out_ext_suffix || ends_with n out_min_suffix
        || ends_with n out_max_suffix)
  | .Add a b => noOutVarE a && noOutVarE b
  | .Sub a b => noOutVarE a && noOutVarE b
  | .Mul a b => noOutVarE a && noOutVarE b
  | .Div a b => noOutVarE a && noOutVarE b
  | .Mod a b => noOutVarE a && noOutVarE b
  | .Min a b => noOutVarE a && noOutVarE b
  | .Max a b => noOutVarE a && noOutVarE b
  | .Likely a => noOutVarE a
  | .Call _ a => noOutVarE a

/-- The statement contains no `For` loop named `*.__outermost`, no
`LetStmt` binding a `.__outermost` bound symbol, and no variable
referring to one. -/
def noOutermostS : Stmt → Bool
  | .Evaluate e => noOutVarE e
  | .Provide _ v s => noOutVarE v && noOutVarE s
  | .LetStmt n v b =>
      !(ends_with n out_ext_suffix || ends_with n out_min_suffix
        || ends_with n out_max_suffix)
      && noOutVarE v && noOutermostS b
  | .For n lo ext _ _ b =>
      !(ends_with n outermost_suffix) && noOutVarE lo && noOutVarE ext && noOutermostS b
  | .Block a b => noOutermostS a && noOutermostS b
  | .IfThenElse c t e => noOutVarE c && noOutermostS t && noOutermostS e

/-! ## Partitioner: option evaluation and merge acceptance
(`ScheduleFunctions.cpp:1904-2145, 2166-2392`) -/

/-- The two grouping phases (`Partitioner::Level`,
`ScheduleFunctions.cpp:1923`). -/
inductive PLevel
  | INLINE
  | FAST_MEM
deriving DecidableEq

/-- `Partitioner::MachineParams` (`ScheduleFunctions.cpp:1930-1937`). -/
structure MachineParams where
  parallelism : Int
  vec_len : Int
  fast_mem_size : Int
  inline_size : Int
  balance_fast_mem : Int
  balance_inline : Int
deriving DecidableEq

/-- The machine parameters installed by the `Partitioner` constructor
(`ScheduleFunctions.cpp:2023-2030`). -/
def default_arch : MachineParams :=
  { parallelism := 8, vec_len := 8, balance_fast_mem := 10, balance_inline := 4,
    inline_size := 32 * 4, fast_mem_size := 32 * 1024 * 8 }

/-- `Partitioner::Option` (`ScheduleFunctions.cpp:1906-1920`); the float
scores are modelled exactly over ℚ. -/
structure POption where
  prod_group : Name
  cons_group : Name
  tile_sizes : List Int
  benefit : ℚ
  redundant_work : ℚ
deriving DecidableEq

/-- The benefit assignment at the end of `Partitioner::evaluate_option`
(`ScheduleFunctions.cpp:2363-2391`), as a function of the phase, the
machine parameters, the intermediate footprint `inter_s`, `total_mem`,
the redundant work, the tile-count estimate, and the benefit value the
option carried on entry (`-1` in every caller). Float arithmetic is
modelled exactly over ℚ. -/
def evaluate_option_benefit (l : PLevel) (ap : MachineParams)
    (inter_s total_mem : Int) (redundant_work : ℚ)
    (estimate_tiles : Int) (benefit0 : ℚ) : ℚ :=
  let b1 : ℚ :=
    match l with
    | .INLINE =>
      if inter_s ≤ ap.inline_size then
        (total_mem : ℚ) * (ap.balance_inline : ℚ) - redundant_work
      else if inter_s ≤ 2 * ap.inline_size then
        let hit : ℚ := ((max (2 * ap.inline_size - inter_s) 0 : Int) : ℚ) / (inter_s : ℚ)
        let loads_saved : ℚ := hit * (total_mem : ℚ)
        loads_saved * (ap.balance_inline : ℚ) - redundant_work
      else benefit0
    | .FAST_MEM =>
      if inter_s ≤ ap.fast_mem_size then
        (total_mem : ℚ) * (ap.balance_fast_mem : ℚ) - redundant_work
      else if inter_s ≤ 2 * ap.fast_mem_size then
        let hit : ℚ := ((max (2 * ap.fast_mem_size - inter_s) 0 : Int) : ℚ) / (inter_s : ℚ)
        let loads_saved : ℚ := hit * (total_mem : ℚ)
        loads_saved * (ap.balance_fast_mem : ℚ) - redundant_work
      else benefit0
  if ap.parallelism > estimate_tiles then (-1 : ℚ) else b1

/-- The phase's memory cap, as the claims phrase it (`inline_size` in
the INLINE phase, `fast_mem_size` in the FAST_MEM phase). -/
def phase_cap (l : PLevel) (ap : MachineParams) : Int :=
  match l with
  | .INLINE => ap.inline_size
  | .FAST_MEM => ap.fast_mem_size

/-- The phase's balance parameter. -/
def phase_balance (l : PLevel) (ap : MachineParams) : Int :=
  match l with
  | .INLINE => ap.balance_inline
  | .FAST_MEM => ap.balance_fast_mem

/-- `Partitioner::group`'s acceptance test (`ScheduleFunctions.cpp:2120`):
the chosen option is applied as a merge iff its benefit differs from the
`-1` sentinel. -/
def group_accepts_merge (best : POption) : Bool := best.benefit != -1

/-- The starting value of `best_opt` in `choose_candidate` and
`choose_candidate_inline` (`ScheduleFunctions.cpp:2399-2400, 2499-2500`):
a default-constructed option whose benefit is set to `-1`. -/
def initial_best (pg cg : Name) : POption :=
  { prod_group := pg, cons_group := cg, tile_sizes := [],
    benefit := -1, redundant_work := 0 }

/-- The selection fold of `choose_candidate` and
`choose_candidate_inline` (`ScheduleFunctions.cpp:2408-2409, 2436-2437,
2509-2510, 2582-2583, 2590-2591`): the running best option is replaced
only when the candidate's benefit is strictly greater. -/
def select_best (init : POption) (cands : List POption) : POption :=
  cands.foldl (fun best cand => if best.benefit < cand.benefit then cand else best) init

/-- The C++ float-to-int conversion truncates toward zero; on an exact
rational this is truncating division of numerator by denominator. -/
def ratTruncToInt (q : ℚ) : Int := Int.tdiv q.num (Int.ofNat q.den)

/-- `GroupSched` as recorded on an accepted merge
(`ScheduleFunctions.cpp:1925-1928, 2138-2141`): the option's tile sizes
and its benefit — an `int` field in the source, so the float benefit is
truncated on recording. -/
structure GroupSched where
  tile_sizes : List Int
  benefit : Int
deriving DecidableEq

/-- One acceptance step of `Partitioner::group`
(`ScheduleFunctions.cpp:2120-2143`): apply the merge and record the new
group schedule — with the benefit truncated to int — iff the benefit is
not `-1`. -/
def group_step (best : POption) : Option GroupSched :=
  if group_accepts_merge best then
    some { tile_sizes := best.tile_sizes, benefit := ratTruncToInt best.benefit }
  else none

/-- The selection fold never lowers the running benefit. -/
theorem select_best_benefit_le (init : POption) (cands : List POption) :
    init.benefit ≤ (select_best init cands).benefit := by
  induction cands generalizing init with
  | nil => exact le_refl _
  | cons c cs ih =>
      simp only [select_best, List.foldl] at ih ⊢
      by_cases h : init.benefit < c.benefit
      · rw [if_pos h]
        exact le_of_lt (lt_of_lt_of_le h (ih c))
      · rw [if_neg h]
        exact ih init

/-! ## Theorems -/

/-- The input splits of the normalisation counterexample: the user
renames `x` to `y`, splits `y` into `(z, yi)` by 4, then splits `z`
into `(w, zi)` by 2. -/
def c7_input : List Split :=
  [ { old_var := strN "x", outer := strN "y", inner := [], factor := .IntImm 0,
      exact := false, isPartial := false, kind := .rename },
    { old_var := strN "y", outer := strN "z", inner := strN "yi", factor := .IntImm 4,
      exact := false, isPartial := false, kind := .split },
    { old_var := strN "z", outer := strN "w", inner := strN "zi", factor := .IntImm 2,
      exact := false, isPartial := false, kind := .split } ]

/-- What one normalisation pass makes of `c7_input`: the rename is
absorbed, but the chain `outer z / old z` between the two surviving
splits is left in place because the rename case resumes at `j = i+2`. -/
def c7_once : List Split :=
  [ { old_var := strN "x", outer := strN "z", inner := strN "yi", factor := .IntImm 4,
      exact := false, isPartial := false, kind := .split },
    { old_var := strN "z", outer := strN "w", inner := strN "zi", factor := .IntImm 2,
      exact := false, isPartial := false, kind := .split } ]

/-- What a second normalisation pass makes of `c7_once`: the combine
case now fires and rewrites both splits. -/
def c7_twice : List Split :=
  [ { old_var := strN "x", outer := strN "w", inner := strN "s0", factor := .IntImm 8,
      exact := false, isPartial := false, kind := .split },
    { old_var := strN "s0", outer := strN "zi", inner := strN "yi", factor := .IntImm 4,
      exact := false, isPartial := false, kind := .split } ]

/-- C7: the split normalisation of `build_provide_loop_nest` is claimed
idempotent, but on the split list `[rename x→y, split y→(z,yi,4),
split z→(w,zi,2)]` one pass produces a list that still chains
(`outer z` of the first surviving split is the `old` of the second),
and a second pass rewrites it into a different list: after the rename
case deletes `splits[i]`, the scan resumes at `j = i+2` and never
examines the new pair `(i, i+1)`. -/
theorem c7_rebalance_not_idempotent :
    rebalance_splits c7_input 0 = .ok c7_once 0
    ∧ rebalance_splits c7_once 0 = .ok c7_twice 1
    ∧ c7_once ≠ c7_twice := by decide

/-- C2 (amended): the option the grouping loop applies is the one
selected by `choose_candidate` / `choose_candidate_inline`, whose
running best starts at the `-1` sentinel and is replaced only on
strictly greater benefit; hence a selected option's benefit is at least
`-1`, a merge is accepted and applied exactly when that benefit is
strictly greater than `-1` — not necessarily strictly positive — and
the applied option's tile sizes and its benefit, truncated to int, are
recorded as the consumer group's schedule. -/
theorem c2_accepted_merge_above_sentinel (pg cg : Name) (cands : List POption) :
    (-1 : ℚ) ≤ (select_best (initial_best pg cg) cands).benefit
    ∧ (group_accepts_merge (select_best (initial_best pg cg) cands) = true
        ↔ (-1 : ℚ) < (select_best (initial_best pg cg) cands).benefit)
    ∧ group_step (select_best (initial_best pg cg) cands)
        = if (-1 : ℚ) < (select_best (initial_best pg cg) cands).benefit
          then some { tile_sizes := (select_best (initial_best pg cg) cands).tile_sizes,
                      benefit := ratTruncToInt (select_best (initial_best pg cg) cands).benefit }
          else none := by
  have hge : (-1 : ℚ) ≤ (select_best (initial_best pg cg) cands).benefit :=
    select_best_benefit_le (initial_best pg cg) cands
  have hiff : (group_accepts_merge (select_best (initial_best pg cg) cands) = true
      ↔ (-1 : ℚ) < (select_best (initial_best pg cg) cands).benefit) := by
    rw [group_accepts_merge, bne_iff_ne]
    constructor
    · intro hne
      exact lt_of_le_of_ne hge (Ne.symm hne)
    · intro hlt
      exact ne_of_gt hlt
  refine ⟨hge, hiff, ?_⟩
  by_cases h : (-1 : ℚ) < (select_best (initial_best pg cg) cands).benefit
  · rw [if_pos h, group_step, if_pos (hiff.mpr h)]
  · rw [if_neg h, group_step, if_neg]
    intro hacc
    exact h (hiff.mp hacc)

/-- The option of the C2 counterexample: an INLINE-phase candidate whose
footprint 100 is below the 128-element cap, with total memory 100,
redundant work 400 and 8 estimated tiles, so its benefit is
`100·4 − 400 = 0` exactly. -/
def c2_option : POption :=
  { prod_group := strN "f", cons_group := strN "g", tile_sizes := [1, 1],
    benefit := evaluate_option_benefit .INLINE default_arch 100 100 400 8 (-1),
    redundant_work := 400 }

/-- C2 (counterexample): the option's benefit evaluates to exactly 0;
the selection fold picks it over the `-1` starting value since `0 > -1`,
`Partitioner::group` accepts it since `0 ≠ -1`, and the merge is applied
with the zero benefit recorded — yet 0 is not strictly positive. -/
theorem c2_zero_benefit_merge_applied :
    evaluate_option_benefit .INLINE default_arch 100 100 400 8 (-1) = 0
    ∧ select_best (initial_best (strN "f") (strN "g")) [c2_option] = c2_option
    ∧ group_accepts_merge c2_option = true
    ∧ ¬ (0 : ℚ) < c2_option.benefit
    ∧ group_step c2_option = some { tile_sizes := [1, 1], benefit := 0 } := by
  have h : evaluate_option_benefit .INLINE default_arch 100 100 400 8 (-1) = 0 := by
    norm_num [evaluate_option_benefit, default_arch]
  refine ⟨h, ?_, ?_, ?_, ?_⟩
  · simp [select_best, initial_best, c2_option, h]
  · simp [group_accepts_merge, c2_option, h]
  · simp [c2_option, h]
  · simp [group_step, group_accepts_merge, c2_option, h, ratTruncToInt, Rat.num_ofNat,
      Rat.den_ofNat]

/-- C5: the benefit assignment of `Partitioner::evaluate_option`, with
`cap` the phase's memory size and `balance` the phase's balance
parameter: below `cap` the benefit is `total_mem·balance −
redundant_work`; between `cap` and `2·cap` it is
`(max(2·cap − inter_s, 0)/inter_s)·total_mem·balance − redundant_work`;
beyond `2·cap` it stays at the incoming `-1`; and whenever the
parallelism parameter exceeds the tile estimate the benefit is forced
to `-1` regardless. -/
theorem c5_evaluate_option_benefit_cases (l : PLevel) (ap : MachineParams)
    (inter_s total_mem : Int) (rw : ℚ) (tiles : Int) :
    (∀ b0 : ℚ, ap.parallelism > tiles →
        evaluate_option_benefit l ap inter_s total_mem rw tiles b0 = -1)
    ∧ (ap.parallelism ≤ tiles →
        (inter_s ≤ phase_cap l ap →
            evaluate_option_benefit l ap inter_s total_mem rw tiles (-1)
              = (total_mem : ℚ) * (phase_balance l ap : ℚ) - rw)
        ∧ (¬ inter_s ≤ phase_cap l ap → inter_s ≤ 2 * phase_cap l ap →
            evaluate_option_benefit l ap inter_s total_mem rw tiles (-1)
              = ((max (2 * phase_cap l ap - inter_s) 0 : Int) : ℚ) / (inter_s : ℚ)
                  * (total_mem : ℚ) * (phase_balance l ap : ℚ) - rw)
        ∧ (¬ inter_s ≤ phase_cap l ap → ¬ inter_s ≤ 2 * phase_cap l ap →
            evaluate_option_benefit l ap inter_s total_mem rw tiles (-1) = -1)) := by
  constructor
  · intro b0 hp
    cases l <;> simp [evaluate_option_benefit, hp]
  · intro hp
    have hp' : ¬ ap.parallelism > tiles := not_lt.mpr hp
    refine ⟨?_, ?_, ?_⟩
    · intro h1
      cases l <;>
        · simp only [phase_cap] at h1
          simp only [evaluate_option_benefit, phase_balance]
          rw [if_neg hp', if_pos h1]
    · intro h1 h2
      cases l <;>
        · simp only [phase_cap] at h1 h2
          simp only [evaluate_option_benefit, phase_cap, phase_balance]
          rw [if_neg hp', if_neg h1, if_pos h2]
    · intro h1 h2
      cases l <;>
        · simp only [phase_cap] at h1 h2
          simp only [evaluate_option_benefit, phase_balance]
          rw [if_neg hp', if_neg h1, if_neg h2]

/-- C5 (witness): a FAST_MEM option with footprint 100 under the default
machine parameters (cap 262144, balance 10), total memory 10, redundant
work 3 and 8 tiles gets benefit `10·10 − 3 = 97`. -/
theorem c5_evaluate_option_benefit_cases_witness :
    default_arch.parallelism ≤ 8
    ∧ (100 : Int) ≤ phase_cap .FAST_MEM default_arch
    ∧ evaluate_option_benefit .FAST_MEM default_arch 100 10 3 8 (-1)
        = (10 : ℚ) * (phase_balance .FAST_MEM default_arch : ℚ) - 3 :=
  ⟨by decide, by decide,
   ((c5_evaluate_option_benefit_cases .FAST_MEM default_arch 100 10 3 8).2
      (by decide)).1 (by decide)⟩

/-- C8: for an output function, `validate_schedule` succeeds exactly
when both `store_at` and `compute_at` are root — in that case without
inspecting the statement at all — and otherwise terminates with the
output user error naming the function. -/
theorem c8_output_must_be_root (fname : Name) (store_at compute_at : LoopLevelV) :
    ((store_at = .root ∧ compute_at = .root) →
        ∀ s : Stmt, validate_schedule fname store_at compute_at true s = .ok)
    ∧ (¬ (store_at = .root ∧ compute_at = .root) →
        ∀ s : Stmt, validate_schedule fname store_at compute_at true s
          = .outputError fname)
    ∧ ∀ s₁ s₂ : Stmt, validate_schedule fname store_at compute_at true s₁
        = validate_schedule fname store_at compute_at true s₂ := by
  refine ⟨?_, ?_, ?_⟩
  · rintro ⟨h1, h2⟩ s
    simp [validate_schedule, h1, h2]
  · intro h s
    have : ¬ (store_at == LoopLevelV.root && compute_at == LoopLevelV.root) = true := by
      simpa [not_and_or, beq_iff_eq, -not_and] using h
    simp [validate_schedule, this]
  · intro s₁ s₂
    by_cases h : (store_at == LoopLevelV.root && compute_at == LoopLevelV.root) = true <;>
      simp [validate_schedule, h]

/-- C8 (witness): a root/root output schedule is accepted on an
arbitrary statement; a non-root output schedule is refused with the
output error naming the function. -/
theorem c8_output_must_be_root_witness :
    validate_schedule (strN "g") .root .root true (.Evaluate (.IntImm 0)) = .ok
    ∧ validate_schedule (strN "g") .inlined .root true (.Evaluate (.IntImm 0))
        = .outputError (strN "g") :=
  ⟨(c8_output_must_be_root (strN "g") .root .root).1 ⟨rfl, rfl⟩ _,
   (c8_output_must_be_root (strN "g") .inlined .root).2.1 (by simp) _⟩

/-- A two-loop statement over `g` whose inner loop (of the given type)
contains a call to `f`. -/
def c9_stmt (ft : ForType) : Stmt :=
  .For (strN "g.s0.x") (.IntImm 0) (.IntImm 10) .Serial .Host
    (.For (strN "g.s0.y") (.IntImm 0) (.IntImm 10) ft .Host
      (.Provide (strN "h") (.Call (strN "f") (.IntImm 0)) (.IntImm 0)))

/-- C9: `ComputeLegalSchedules` flags Vectorized loops as parallel
exactly like Parallel loops, while Serial and Unrolled loops are never
flagged; consequently storing `f` at the outer loop while computing it
at an inner vectorized loop is rejected as a race, just as for a
parallel loop, whereas an inner serial or unrolled loop is accepted. -/
theorem c9_vectorized_counts_as_parallel :
    site_is_parallel .Vectorized = true
    ∧ site_is_parallel .Parallel = true
    ∧ site_is_parallel .Serial = false
    ∧ site_is_parallel .Unrolled = false
    ∧ validate_schedule (strN "f") (.at_ (strN "g") (strN "x"))
        (.at_ (strN "g") (strN "y")) false (c9_stmt .Vectorized)
        = .raceError (strN "f")
    ∧ validate_schedule (strN "f") (.at_ (strN "g") (strN "x"))
        (.at_ (strN "g") (strN "y")) false (c9_stmt .Parallel)
        = .raceError (strN "f")
    ∧ validate_schedule (strN "f") (.at_ (strN "g") (strN "x"))
        (.at_ (strN "g") (strN "y")) false (c9_stmt .Serial)
        = .ok
    ∧ validate_schedule (strN "f") (.at_ (strN "g") (strN "x"))
        (.at_ (strN "g") (strN "y")) false (c9_stmt .Unrolled)
        = .ok := by decide

/-- C4: a SplitVar marked `exact` whose factor is not proven to divide
the known extent of its old variable makes `build_provide_loop_nest`
fail with the user error naming the old variable, the outer and inner
variables and the factor (together with the looked-up extent), in pure
and update stages alike, and the stage produces no IR: the fold over
the stage's splits propagates the error. -/
theorem c4_exact_split_not_divisible_errors (pre : Name) (is_update : Bool)
    (dims : List Dim) (split : Split) (known : KnownMap) (stmt : Stmt) (e : Expr)
    (hkind : split.kind = .split)
    (hext : klookup (kinsert known split.inner split.factor) split.old_var = some e)
    (hdiv : is_zero (simplifyE (.Mod e split.factor)) = false)
    (hexact : split.exact = true) :
    apply_split_step pre is_update (innermostNonTrivial dims) (stmt, known) split
      = Except.error
          { old_var := split.old_var, outer := split.outer, inner := split.inner,
            factor := split.factor, extent := some e }
    ∧ apply_splits pre is_update dims [split] (stmt, known)
      = Except.error
          { old_var := split.old_var, outer := split.outer, inner := split.inner,
            factor := split.factor, extent := some e } := by
  have hpd : proven_divides (kinsert known split.inner split.factor) split = false := by
    simp [proven_divides, hext, hdiv]
  have hstep : apply_split_step pre is_update (innermostNonTrivial dims) (stmt, known) split
      = Except.error
          { old_var := split.old_var, outer := split.outer, inner := split.inner,
            factor := split.factor, extent := some e } := by
    obtain ⟨ov, out, inn, fac, ex, pa, kd⟩ := split
    simp only at hkind hexact
    subst hkind hexact
    simp only at hpd hext
    simp [apply_split_step, hpd, hext]
  exact ⟨hstep, by simp [apply_splits, List.foldlM, hstep]⟩

/-- C4 (witness): splitting a variable of known extent 7 by an exact
factor of 4 aborts with the error naming `x`, `xo`, `xi`, the factor 4
and the extent 7; no statement is produced. -/
theorem c4_exact_split_not_divisible_errors_witness :
    apply_split_step (strN "f.s1.") true (innermostNonTrivial [])
        (.Evaluate (.IntImm 0), [(strN "x", .IntImm 7)])
        { old_var := strN "x", outer := strN "xo", inner := strN "xi",
          factor := .IntImm 4, exact := true, isPartial := false, kind := .split }
      = Except.error
          { old_var := strN "x", outer := strN "xo", inner := strN "xi",
            factor := .IntImm 4, extent := some (.IntImm 7) } :=
  (c4_exact_split_not_divisible_errors (strN "f.s1.") true []
      { old_var := strN "x", outer := strN "xo", inner := strN "xi",
        factor := .IntImm 4, exact := true, isPartial := false, kind := .split }
      [(strN "x", .IntImm 7)] (.Evaluate (.IntImm 0)) (.IntImm 7)
      rfl (by decide) (by decide) rfl).1

/-- C6: a FuseVars split emits, with `factor = max(inner.loop_extent, 1)`,
the let `outer := fused / factor + outer.loop_min` wrapping the let
`inner := fused % factor + inner.loop_min` around the substituted body;
every divisor occurring in the two let values is that `factor`, whose
value is at least 1 under every environment — in particular there is no
division or modulus by zero even when the inner extent is 0. -/
theorem c6_fuse_lets_well_formed (pre : Name) (is_update : Bool) (intl : Dim)
    (split : Split) (known : KnownMap) (stmt : Stmt)
    (hkind : split.kind = .fuse) :
    ∃ kn : KnownMap,
      apply_split_step pre is_update intl (stmt, known) split
        = Except.ok
            (Stmt.LetStmt (pre ++ split.outer)
              (Expr.Add
                (Expr.Div (Expr.Var (pre ++ split.old_var))
                  (Expr.Max (Expr.Var (pre ++ split.inner ++ strN ".loop_extent"))
                    (Expr.IntImm 1)))
                (Expr.Var (pre ++ split.outer ++ strN ".loop_min")))
              (Stmt.LetStmt (pre ++ split.inner)
                (Expr.Add
                  (Expr.Mod (Expr.Var (pre ++ split.old_var))
                    (Expr.Max (Expr.Var (pre ++ split.inner ++ strN ".loop_extent"))
                      (Expr.IntImm 1)))
                  (Expr.Var (pre ++ split.inner ++ strN ".loop_min")))
                (substS (pre ++ split.outer)
                  (Expr.Add
                    (Expr.Div (Expr.Var (pre ++ split.old_var))
                      (Expr.Max (Expr.Var (pre ++ split.inner ++ strN ".loop_extent"))
                        (Expr.IntImm 1)))
                    (Expr.Var (pre ++ split.outer ++ strN ".loop_min")))
                  (substS (pre ++ split.inner)
                    (Expr.Add
                      (Expr.Mod (Expr.Var (pre ++ split.old_var))
                        (Expr.Max (Expr.Var (pre ++ split.inner ++ strN ".loop_extent"))
                          (Expr.IntImm 1)))
                      (Expr.Var (pre ++ split.inner ++ strN ".loop_min")))
                    stmt))),
             kn)
    ∧ ∀ (env : Name → Int) (d : Expr),
        d ∈ divisorsE
              (Expr.Add
                (Expr.Mod (Expr.Var (pre ++ split.old_var))
                  (Expr.Max (Expr.Var (pre ++ split.inner ++ strN ".loop_extent"))
                    (Expr.IntImm 1)))
                (Expr.Var (pre ++ split.inner ++ strN ".loop_min")))
            ++ divisorsE
              (Expr.Add
                (Expr.Div (Expr.Var (pre ++ split.old_var))
                  (Expr.Max (Expr.Var (pre ++ split.inner ++ strN ".loop_extent"))
                    (Expr.IntImm 1)))
                (Expr.Var (pre ++ split.outer ++ strN ".loop_min")))
        → 0 < evalE env d := by
  obtain ⟨ov, out, inn, fac, ex, pa, kd⟩ := split
  simp only at hkind
  subst hkind
  refine ⟨?_, ?_, ?_⟩
  · exact match klookup known inn, klookup known out with
      | some a, some b => kinsert known ov (.Mul a b)
      | some _, none => known
      | none, _ => known
  · simp only [apply_split_step]
    rcases h1 : klookup known inn with _ | a <;> rcases h2 : klookup known out with _ | b <;> rfl
  · intro env d hd
    simp only [divisorsE, List.nil_append, List.append_nil, List.cons_append,
      List.mem_cons, List.mem_singleton, List.not_mem_nil, or_false] at hd
    have hde : d = Expr.Max (Expr.Var (pre ++ inn ++ strN ".loop_extent")) (Expr.IntImm 1) := by
      rcases hd with h | h <;> exact h
    subst hde
    simp only [evalE]
    exact lt_of_lt_of_le Int.zero_lt_one (le_max_right _ _)

/-- C6 (witness): fusing `fo, fi` into `f` and evaluating under an
environment that gives every symbol the value 0 — so the inner loop
extent is 0 — the single divisor of the emitted lets, `max(fi.loop_extent, 1)`,
still evaluates to a positive value. -/
theorem c6_fuse_lets_well_formed_witness :
    0 < evalE (fun _ => 0)
        (Expr.Max (Expr.Var (strN "f.s0." ++ strN "fi" ++ strN ".loop_extent"))
          (Expr.IntImm 1)) := by
  obtain ⟨kn, -, hpos⟩ :=
    c6_fuse_lets_well_formed (strN "f.s0.") false { var := [], for_type := .Serial }
      { old_var := strN "f", outer := strN "fo", inner := strN "fi",
        factor := .IntImm 0, exact := false, isPartial := false, kind := .fuse }
      [] (.Evaluate (.IntImm 0)) rfl
  exact hpos (fun _ => 0) _ (by decide)

/-- C3: a SplitVar in a pure, non-partial stage whose factor is not
proven to divide the known extent of the old variable, and which is not
exact, emits the let `<inner>.base := min(base, old_max + (1 − factor))`
with `base = outer·factor + old_min` — wrapped in `likely` exactly when
the split's outer variable is the innermost non-trivial loop (the first
dim that is neither Vectorized nor Unrolled) and that loop is Serial —
followed by the let re-defining the old variable as `<inner>.base +
inner` over the substituted body; under every environment the clamped
value is the minimum of the base and `old_max + 1 − factor`. -/
theorem c3_pure_split_clamps_base (pre : Name) (dims : List Dim) (split : Split)
    (known : KnownMap) (stmt : Stmt)
    (hkind : split.kind = .split)
    (hdiv : proven_divides (kinsert known split.inner split.factor) split = false)
    (hexact : split.exact = false) (hpart : split.isPartial = false) :
    ∃ b : Expr,
      (apply_split_step pre false (innermostNonTrivial dims) (stmt, known) split
        = Except.ok
            (Stmt.LetStmt (pre ++ split.inner ++ strN ".base")
              (Expr.Min b
                (Expr.Add (Expr.Var (pre ++ split.old_var ++ strN ".loop_max"))
                  (Expr.Sub (Expr.IntImm 1) split.factor)))
              (Stmt.LetStmt (pre ++ split.old_var)
                (Expr.Add (Expr.Var (pre ++ split.inner ++ strN ".base"))
                  (Expr.Var (pre ++ split.inner)))
                (substS (pre ++ split.old_var)
                  (Expr.Add (Expr.Var (pre ++ split.inner ++ strN ".base"))
                    (Expr.Var (pre ++ split.inner)))
                  stmt)),
             kinsert known split.inner split.factor))
      ∧ ((split.outer = (innermostNonTrivial dims).var
            ∧ (innermostNonTrivial dims).for_type = .Serial) →
          b = Expr.Likely (Expr.Add (Expr.Mul (Expr.Var (pre ++ split.outer)) split.factor)
                (Expr.Var (pre ++ split.old_var ++ strN ".loop_min"))))
      ∧ (¬ (split.outer = (innermostNonTrivial dims).var
            ∧ (innermostNonTrivial dims).for_type = .Serial) →
          b = Expr.Add (Expr.Mul (Expr.Var (pre ++ split.outer)) split.factor)
                (Expr.Var (pre ++ split.old_var ++ strN ".loop_min")))
      ∧ ∀ env : Name → Int,
          evalE env
            (Expr.Min b
              (Expr.Add (Expr.Var (pre ++ split.old_var ++ strN ".loop_max"))
                (Expr.Sub (Expr.IntImm 1) split.factor)))
            = min (evalE env b)
                (evalE env (Expr.Var (pre ++ split.old_var ++ strN ".loop_max"))
                  + 1 - evalE env split.factor) := by
  obtain ⟨ov, out, inn, fac, ex, pa, kd⟩ := split
  simp only at hkind hexact hpart hdiv
  subst hkind hexact hpart
  refine ⟨if out == (innermostNonTrivial dims).var
        && (innermostNonTrivial dims).for_type == ForType.Serial then
      Expr.Likely (Expr.Add (Expr.Mul (Expr.Var (pre ++ out)) fac)
        (Expr.Var (pre ++ ov ++ strN ".loop_min")))
    else
      Expr.Add (Expr.Mul (Expr.Var (pre ++ out)) fac)
        (Expr.Var (pre ++ ov ++ strN ".loop_min")), ?_, ?_, ?_, ?_⟩
  · simp [apply_split_step, hdiv]
  · intro h
    rw [if_pos]
    simp only [Bool.and_eq_true, beq_iff_eq]
    exact ⟨h.1, h.2⟩
  · intro h
    rw [if_neg]
    simp only [Bool.and_eq_true, beq_iff_eq]
    exact h
  · intro env
    simp only [evalE]
    omega

/-- C3 (witness): splitting `x` into `(xo, xi)` by 4 in a pure stage
with no known extent for `x`, where `xo` is the innermost non-trivial
loop and is Serial, emits `xi.base := min(likely(xo·4 + x.loop_min),
x.loop_max + (1 − 4))` around the redefinition of `x`. -/
theorem c3_pure_split_clamps_base_witness :
    apply_split_step (strN "f.s0.") false
        (innermostNonTrivial [{ var := strN "xo", for_type := .Serial }])
        (.Evaluate (.Var (strN "f.s0.x")), [])
        { old_var := strN "x", outer := strN "xo", inner := strN "xi",
          factor := .IntImm 4, exact := false, isPartial := false, kind := .split }
      = Except.ok
          (Stmt.LetStmt (strN "f.s0." ++ strN "xi" ++ strN ".base")
            (Expr.Min
              (Expr.Likely (Expr.Add
                (Expr.Mul (Expr.Var (strN "f.s0." ++ strN "xo")) (Expr.IntImm 4))
                (Expr.Var (strN "f.s0." ++ strN "x" ++ strN ".loop_min"))))
              (Expr.Add (Expr.Var (strN "f.s0." ++ strN "x" ++ strN ".loop_max"))
                (Expr.Sub (Expr.IntImm 1) (Expr.IntImm 4))))
            (Stmt.LetStmt (strN "f.s0." ++ strN "x")
              (Expr.Add (Expr.Var (strN "f.s0." ++ strN "xi" ++ strN ".base"))
                (Expr.Var (strN "f.s0." ++ strN "xi")))
              (substS (strN "f.s0." ++ strN "x")
                (Expr.Add (Expr.Var (strN "f.s0." ++ strN "xi" ++ strN ".base"))
                  (Expr.Var (strN "f.s0." ++ strN "xi")))
                (.Evaluate (.Var (strN "f.s0.x"))))),
           kinsert [] (strN "xi") (Expr.IntImm 4)) := by
  obtain ⟨b, heq, hlik, -, -⟩ :=
    c3_pure_split_clamps_base (strN "f.s0.") [{ var := strN "xo", for_type := .Serial }]
      { old_var := strN "x", outer := strN "xo", inner := strN "xi",
        factor := .IntImm 4, exact := false, isPartial := false, kind := .split }
      [] (.Evaluate (.Var (strN "f.s0.x"))) rfl (by decide) rfl rfl
  rw [hlik (by exact ⟨by decide, by decide⟩)] at heq
  exact heq

/-- The race window of `validate_sites` is empty exactly when no site
with index in `(store_idx, compute_idx]` is parallel. -/
theorem parallel_between_eq_false_iff (sites : List SiteV) (si ci : Nat) :
    parallel_between sites si ci = false ↔
      ∀ k, si < k → k ≤ ci →
        (sites.getD k { is_parallel := false, loop_level := .root }).is_parallel = false := by
  rw [parallel_between, List.any_eq_false]
  constructor
  · intro h k h1 h2
    have hk : k ∈ List.range' (si+1) (ci - si) := by
      rw [List.mem_range'_1]
      omega
    simpa using h k hk
  · intro h k hk
    rw [List.mem_range'_1] at hk
    simp only [Bool.not_eq_true]
    exact h k (by omega) (by omega)

/-- C1 (amended): for a function that reaches the legal-site analysis,
whenever the index scan finds both `store_at` and `compute_at`
(`store_ok` and `compute_ok` true, with the recorded indices), the
schedule is accepted iff no site with the parallel flag lies at an
index strictly greater than the store index and at most the compute
index — the window includes the `compute_at` site itself — and
otherwise the rejection is precisely the race-condition user error. -/
theorem c1_race_rejects_window (fname : Name) (store_at compute_at : LoopLevelV)
    (sites : List SiteV) (si ci : Nat)
    (h : scan_sites sites store_at compute_at
          = { store_ok := true, compute_ok := true, store_idx := si, compute_idx := ci }) :
    (validate_sites fname store_at compute_at sites = .ok ↔
        ∀ k, si < k → k ≤ ci →
          (sites.getD k { is_parallel := false, loop_level := .root }).is_parallel = false)
    ∧ (validate_sites fname store_at compute_at sites = .ok
        ∨ validate_sites fname store_at compute_at sites = .raceError fname) := by
  have hv : validate_sites fname store_at compute_at sites
      = if parallel_between sites si ci then .raceError fname else .ok := by
    rw [validate_sites, h]
    rfl
  constructor
  · rw [hv]
    rcases hpb : parallel_between sites si ci with _ | _
    · simpa using (parallel_between_eq_false_iff sites si ci).mp hpb
    · simp only [if_pos]
      constructor
      · intro hcontra; cases hcontra
      · intro hall
        rw [(parallel_between_eq_false_iff sites si ci).mpr hall] at hpb
        cases hpb
  · rw [hv]
    rcases parallel_between sites si ci with _ | _
    · exact Or.inl rfl
    · exact Or.inr rfl

/-- Legal sites used by the C1 witness: a serial site above a serial
site. -/
def c1w_sites : List SiteV :=
  [ { is_parallel := false, loop_level := .at_ (strN "g") (strN "x") },
    { is_parallel := false, loop_level := .at_ (strN "g") (strN "y") } ]

/-- C1 (witness): with both levels found at indices 0 and 1 and no
parallel site in the window, the schedule is accepted. -/
theorem c1_race_rejects_window_witness :
    scan_sites c1w_sites (.at_ (strN "g") (strN "x")) (.at_ (strN "g") (strN "y"))
      = { store_ok := true, compute_ok := true, store_idx := 0, compute_idx := 1 }
    ∧ validate_sites (strN "f") (.at_ (strN "g") (strN "x")) (.at_ (strN "g") (strN "y"))
        c1w_sites = .ok := by
  refine ⟨by decide, ?_⟩
  refine (c1_race_rejects_window (strN "f") (.at_ (strN "g") (strN "x"))
      (.at_ (strN "g") (strN "y")) c1w_sites 0 1 (by decide)).1.mpr ?_
  intro k h1 h2
  have hk : k = 1 := by omega
  subst hk
  decide

/-- Legal sites of the C1 counterexample: the store site is serial and
the compute site itself is parallel, with nothing strictly between
them. -/
def c1c_sites : List SiteV :=
  [ { is_parallel := false, loop_level := .at_ (strN "g") (strN "x") },
    { is_parallel := true, loop_level := .at_ (strN "g") (strN "y") } ]

/-- C1 (counterexample): both `store_at` and `compute_at` appear in the
legal-site list at indices 0 ≤ 1 and no site lies strictly between
them — the claim's acceptance conditions — yet `validate_schedule`
rejects with the race-condition error, because the race loop also
inspects the `compute_at` site itself, which is parallel here. -/
theorem c1_compute_site_parallel_still_rejected :
    scan_sites c1c_sites (.at_ (strN "g") (strN "x")) (.at_ (strN "g") (strN "y"))
      = { store_ok := true, compute_ok := true, store_idx := 0, compute_idx := 1 }
    ∧ parallel_strictly_between c1c_sites 0 1 = false
    ∧ validate_sites (strN "f") (.at_ (strN "g") (strN "x")) (.at_ (strN "g") (strN "y"))
        c1c_sites = .raceError (strN "f") := by decide

/-- After `RemoveLoopsOverOutermost`, no expression refers to a
`.__outermost` bound symbol. -/
theorem removeE_noOutVar (e : Expr) : noOutVarE (removeE e) = true := by
  induction e with
  | IntImm v => rfl
  | Var n =>
      simp only [removeE]
      rcases h1 : ends_with n out_ext_suffix with _ | _
      · rcases h2 : ends_with n out_min_suffix with _ | _
        · rcases h3 : ends_with n out_max_suffix with _ | _
          · simp [noOutVarE, h1, h2, h3]
          · rfl
        · rfl
      · rfl
  | Add a b iha ihb => simp [removeE, noOutVarE, iha, ihb]
  | Sub a b iha ihb => simp [removeE, noOutVarE, iha, ihb]
  | Mul a b iha ihb => simp [removeE, noOutVarE, iha, ihb]
  | Div a b iha ihb => simp [removeE, noOutVarE, iha, ihb]
  | Mod a b iha ihb => simp [removeE, noOutVarE, iha, ihb]
  | Min a b iha ihb => simp [removeE, noOutVarE, iha, ihb]
  | Max a b iha ihb => simp [removeE, noOutVarE, iha, ihb]
  | Likely a iha => simpa [removeE, noOutVarE] using iha
  | Call n a iha => simpa [removeE, noOutVarE] using iha

/-- After `RemoveLoopsOverOutermost`, the statement is free of
`.__outermost` loops, lets and variable references. -/
theorem removeS_noOutermost (s : Stmt) : noOutermostS (removeS s) = true := by
  induction s with
  | Evaluate e => simpa [removeS, noOutermostS] using removeE_noOutVar e
  | Provide n v s => simp [removeS, noOutermostS, removeE_noOutVar]
  | LetStmt n v b ihb =>
      simp only [removeS]
      rcases h : (ends_with n out_ext_suffix || ends_with n out_min_suffix
          || ends_with n out_max_suffix) with _ | _
      · simp [noOutermostS, h, removeE_noOutVar, ihb]
      · exact ihb
  | For n lo ext ft dev b ihb =>
      simp only [removeS]
      rcases h : ends_with n outermost_suffix with _ | _
      · simp [noOutermostS, h, removeE_noOutVar, ihb]
      · exact ihb
  | Block a b iha ihb => simp [removeS, noOutermostS, iha, ihb]
  | IfThenElse c t e iht ihe => simp [removeS, noOutermostS, removeE_noOutVar, iht, ihe]

/-- `PropagateLoopDeviceAPI` changes only device tags, so it keeps a
statement free of `.__outermost` loops, lets and references. -/
theorem propagateS_noOutermost (d : DeviceAPI) (s : Stmt)
    (h : noOutermostS s = true) : noOutermostS (propagateS d s) = true := by
  induction s generalizing d with
  | Evaluate e => exact h
  | Provide n v s => exact h
  | LetStmt n v b ihb =>
      simp only [noOutermostS, Bool.and_eq_true] at h
      simp [propagateS, noOutermostS, h.1.1, h.1.2, ihb _ h.2]
  | For n lo ext ft dev b ihb =>
      simp only [noOutermostS, Bool.and_eq_true] at h
      simp [propagateS, noOutermostS, h.1.1.1, h.1.1.2, h.1.2, ihb _ h.2]
  | Block a b iha ihb =>
      simp only [noOutermostS, Bool.and_eq_true] at h
      simp [propagateS, noOutermostS, iha _ h.1, ihb _ h.2]
  | IfThenElse c t e iht ihe =>
      simp only [noOutermostS, Bool.and_eq_true] at h
      simp [propagateS, noOutermostS, h.1.1, iht _ h.1.2, ihe _ h.2]

/-- C10: the tail of `schedule_functions` strips the synthetic root
loop (returning the processed body), and the result contains no For
loop named `*.__outermost`, no LetStmt binding a `.__outermost` bound
symbol, and no variable reference to one; the removal pass rewrites
`.__outermost` loop-min, loop-max and loop-extent references to the
constants 0, 1 and 1 respectively, drops the corresponding LetStmts,
and replaces `.__outermost` For loops by their mutated bodies. -/
theorem c10_tail_no_outermost (n : Name) (lo ext : Expr) (ft : ForType)
    (dev : DeviceAPI) (body : Stmt) :
    (schedule_functions_tail (.For n lo ext ft dev body)
        = some (propagateS .Host (removeS body))
      ∧ noOutermostS (propagateS .Host (removeS body)) = true)
    ∧ (∀ nm : Name, ends_with nm out_ext_suffix = true →
        removeE (.Var nm) = .IntImm 1)
    ∧ (∀ nm : Name, ends_with nm out_ext_suffix = false →
        ends_with nm out_min_suffix = true → removeE (.Var nm) = .IntImm 0)
    ∧ (∀ nm : Name, ends_with nm out_ext_suffix = false →
        ends_with nm out_min_suffix = false →
        ends_with nm out_max_suffix = true → removeE (.Var nm) = .IntImm 1)
    ∧ (∀ (nm : Name) (v : Expr) (b : Stmt),
        (ends_with nm out_ext_suffix || ends_with nm out_min_suffix
          || ends_with nm out_max_suffix) = true →
        removeS (.LetStmt nm v b) = removeS b)
    ∧ (∀ (nm : Name) (lo2 ext2 : Expr) (ft2 : ForType) (dev2 : DeviceAPI) (b : Stmt),
        ends_with nm outermost_suffix = true →
        removeS (.For nm lo2 ext2 ft2 dev2 b) = removeS b) := by
  refine ⟨⟨rfl, propagateS_noOutermost _ _ (removeS_noOutermost body)⟩,
    ?_, ?_, ?_, ?_, ?_⟩
  · intro nm h
    simp [removeE, h]
  · intro nm h1 h2
    simp [removeE, h1, h2]
  · intro nm h1 h2 h3
    simp [removeE, h1, h2, h3]
  · intro nm v b h
    simp [removeS, h]
  · intro nm lo2 ext2 ft2 dev2 b h
    simp [removeS, h]

/-- C10 (witness): a concrete nest — a root loop wrapping the
`.__outermost` bound lets, a `.__outermost` loop and a use of
`g.__outermost.loop_min` — is rewritten by the `schedule_functions`
tail into a statement with the root loop peeled, the dummy loop and
lets gone, and the reference replaced by 0; the three variable rewrite
rules and the two drop rules fire on concrete names. -/
theorem c10_tail_no_outermost_witness :
    schedule_functions_tail
        (.For (strN "__root.__root") (.IntImm 0) (.IntImm 1) .Serial .Host
          (.LetStmt (strN "g.__outermost.loop_extent") (.IntImm 1)
            (.For (strN "g.s0.__outermost") (.IntImm 0) (.IntImm 1) .Serial .Parent
              (.Evaluate (.Var (strN "g.__outermost.loop_min"))))))
      = some (.Evaluate (.IntImm 0))
    ∧ removeE (.Var (strN "g.__outermost.loop_extent")) = .IntImm 1
    ∧ removeE (.Var (strN "g.__outermost.loop_min")) = .IntImm 0
    ∧ removeE (.Var (strN "g.__outermost.loop_max")) = .IntImm 1
    ∧ removeS (.LetStmt (strN "g.__outermost.loop_min") (.IntImm 0)
          (.Evaluate (.IntImm 7)))
        = .Evaluate (.IntImm 7)
    ∧ removeS (.For (strN "g.s0.__outermost") (.IntImm 0) (.IntImm 1) .Serial .Host
          (.Evaluate (.IntImm 7)))
        = .Evaluate (.IntImm 7) := by
  obtain ⟨⟨h0, -⟩, hext, hmin, hmax, hlet, hfor⟩ :=
    c10_tail_no_outermost (strN "__root.__root") (.IntImm 0) (.IntImm 1) .Serial .Host
      (.LetStmt (strN "g.__outermost.loop_extent") (.IntImm 1)
        (.For (strN "g.s0.__outermost") (.IntImm 0) (.IntImm 1) .Serial .Parent
          (.Evaluate (.Var (strN "g.__outermost.loop_min")))))
  refine ⟨?_, hext _ (by decide), hmin _ (by decide) (by decide),
    hmax _ (by decide) (by decide) (by decide),
    hlet _ _ _ (by decide), hfor _ _ _ _ _ _ (by decide)⟩
  rw [h0]
  decide

end ScheduleFunctionsProof
